import Mathlib

/-!
Verification of the scoring / ranking / standings-resolution engine of the
F1 championship simulator (`src/main.py`).

The Python program is shallowly embedded:
* Python dicts with string keys become insertion-ordered association lists
  (`List (String × β)`); assignment `m[k] = v` is `dictSet` (update in place,
  keeping the key's position, else append), and `m[k]` is `dictGet?`.
* Python floats become exact rationals `ℚ`; `round(x, 2)` is `pyRound2`
  (round-half-to-even at two decimals, Python's rounding mode).
* `random.randint(-9, 9)` becomes an injected luck stream `L : ℕ → ℤ`
  together with an explicit draw counter; each score call consumes one draw.
* Python's `sorted(xs, key=..., reverse=True)` is a stable descending sort;
  a stable sort's output is uniquely determined by the comparison and the
  input order, so it is embedded by Mathlib's stable `insertionSort` on the
  descending-by-score relation.
* Runtime failures (`KeyError`, `NameError`, `ValueError`, `IndexError`)
  become an `Except PyError` result.
-/

/-- A driver record (entries of `DRIVERS` in `src/main.py`): unique name,
integer skill and consistency. -/
structure Driver where
  name : String
  skill : ℤ
  consistency : ℤ
  deriving DecidableEq, Repr

/-- A track record (entries of `TRACKS`): name, difficulty, speed bias. -/
structure Track where
  name : String
  difficulty : ℚ
  speed_bias : ℚ
  deriving DecidableEq, Repr

/-- Errors the engine can raise at runtime, plus the spec's
`InvalidConfiguration` (which appears in the spec's error taxonomy but is
never raised by the code). -/
inductive PyError where
  | keyErrorPos (p : ℕ)
  | keyErrorName (n : String)
  | valueError (msg : String)
  | nameError (n : String)
  | indexError
  | invalidConfiguration
  deriving DecidableEq, Repr

/-- The fixed roster (`DRIVERS`, `src/main.py` lines 12-17). -/
def DRIVERS : List Driver :=
  [⟨"Juan Manuel Fangio", 10, 7⟩,
   ⟨"Michael Schumacher", 8, 10⟩,
   ⟨"Max Verstappen", 10, 9⟩]

/-- The regular season tracks (`TRACKS`, lines 19-23). -/
def TRACKS : List Track :=
  [⟨"Monaco", 0.8, 0.2⟩,
   ⟨"Suzuka", 0.75, 0.8⟩,
   ⟨"Silverstone", 0.6, 1⟩]

/-- The reserved tie-break track (`EXTRA_TIE_TRACK`, line 25). -/
def EXTRA_TIE_TRACK : Track := ⟨"Nürburgring", 0.95, 0.6⟩

/-- The points table (`POINTS_SYSTEM`, lines 27-31), as a finite map from
finishing position to points. -/
def POINTS_SYSTEM : List (ℕ × ℤ) := [(1, 25), (2, 18), (3, 15)]

/-- Lookup in the points table: `POINTS_SYSTEM[position]` succeeds exactly on
the table's keys. -/
def points_lookup (p : ℕ) : Option ℤ := POINTS_SYSTEM.lookup p

/-- `MIN_LUCK` (line 50). -/
def MIN_LUCK : ℤ := -9

/-- `MAX_LUCK` (line 51). -/
def MAX_LUCK : ℤ := 9

/-- A luck stream is valid when every draw lies in the closed interval
`[MIN_LUCK, MAX_LUCK]`, the guarantee of `random.randint(-9, 9)`. -/
def LuckValid (L : ℕ → ℤ) : Prop := ∀ n, MIN_LUCK ≤ L n ∧ L n ≤ MAX_LUCK

/-- Round a rational to the nearest integer, halves to even (Python's
rounding mode for `round`). -/
def roundHalfEven (q : ℚ) : ℤ :=
  let f := Rat.floor q
  let r := q - (f : ℚ)
  if r < 1/2 then f
  else if 1/2 < r then f + 1
  else if f % 2 = 0 then f else f + 1

/-- Python's `round(x, 2)`, modelled on exact rationals. -/
def pyRound2 (q : ℚ) : ℚ := (roundHalfEven (q * 100) : ℚ) / 100

/-- `calculate_driver_score` (lines 38-62) with the luck draw made explicit:
`round(skill*difficulty + consistency*speed_bias + luck, 2)`. -/
def calculate_driver_score (driver : Driver) (track : Track) (luck_factor : ℤ) : ℚ :=
  pyRound2 ((driver.skill : ℚ) * track.difficulty
    + (driver.consistency : ℚ) * track.speed_bias + (luck_factor : ℚ))

/-- One call of `calculate_driver_score` against the luck stream: it reads
draw `k` and advances the counter by exactly one. -/
def scoreDraw (driver : Driver) (track : Track) (L : ℕ → ℤ) (k : ℕ) : ℚ × ℕ :=
  (calculate_driver_score driver track (L k), k + 1)

/-- Python dict read `m[k]` (first matching key, `none` models `KeyError`). -/
def dictGet? {β : Type} : List (String × β) → String → Option β
  | [], _ => none
  | (k', v) :: rest, k => if k' = k then some v else dictGet? rest k

/-- Python dict write `m[k] = v`: update in place keeping the key's position,
else append at the end (insertion order). -/
def dictSet {β : Type} : List (String × β) → String → β → List (String × β)
  | [], k, v => [(k, v)]
  | (k', v') :: rest, k, v =>
    if k' = k then (k, v) :: rest else (k', v') :: dictSet rest k v

/-- The descending-by-score order used by `sorted(..., key=score,
reverse=True)`: `x` may come before `y` iff `y`'s value is ≤ `x`'s. -/
def sndGE {β : Type} [LinearOrder β] (x y : String × β) : Prop := y.2 ≤ x.2

instance {β : Type} [LinearOrder β] : DecidableRel (@sndGE β _) :=
  fun x y => inferInstanceAs (Decidable (y.2 ≤ x.2))

instance {β : Type} [LinearOrder β] : IsTotal (String × β) sndGE :=
  ⟨fun x y => le_total y.2 x.2⟩

instance {β : Type} [LinearOrder β] : IsTrans (String × β) sndGE :=
  ⟨fun _ _ _ h1 h2 => le_trans h2 h1⟩

/-- Python's stable descending sort by value (`sorted(m.items(),
key=lambda item: item[1], reverse=True)`): embedded by the stable
`insertionSort`, whose output coincides with any stable sort's. -/
def sortDesc {β : Type} [LinearOrder β] (l : List (String × β)) : List (String × β) :=
  l.insertionSort sndGE

/-- `rank_drivers` (lines 85-98): stable descending sort of the
(name, score) items. -/
def rank_drivers (race_scores : List (String × ℚ)) : List (String × ℚ) :=
  sortDesc race_scores

/-- The score-accumulation loop of `run_race` (lines 76-81): one score call
per driver, written into the performance dict under the driver's name. -/
def scoreLoop (track : Track) (L : ℕ → ℤ) :
    List Driver → List (String × ℚ) → ℕ → List (String × ℚ) × ℕ
  | [], m, k => (m, k)
  | d :: ds, m, k =>
    let (sc, k') := scoreDraw d track L k
    scoreLoop track L ds (dictSet m d.name sc) k'

/-- `run_race` (lines 65-82): score every driver then rank. Returns the
ranking and the advanced draw counter. -/
def run_race (drivers : List Driver) (current_track : Track) (L : ℕ → ℤ) (k : ℕ) :
    List (String × ℚ) × ℕ :=
  let (m, k') := scoreLoop current_track L drivers [] k
  (rank_drivers m, k')

/-- The per-race points loop of `run_championship` (lines 171-177), applying
a ranking to the standings from position `pos` on: looks up
`POINTS_SYSTEM[position]` (KeyError when absent) and performs
`overall_standings[driver_name] += points` (KeyError when the name is
absent). -/
def applyFrom : List (String × ℤ) → ℕ → List (String × ℚ) →
    Except PyError (List (String × ℤ))
  | standings, _, [] => .ok standings
  | standings, pos, (nm, _) :: rest =>
    match points_lookup pos with
    | none => .error (.keyErrorPos pos)
    | some pts =>
      match dictGet? standings nm with
      | none => .error (.keyErrorName nm)
      | some v => applyFrom (dictSet standings nm (v + pts)) (pos + 1) rest

/-- Apply one race's ranking to the standings, positions starting at 1. -/
def apply_race (standings : List (String × ℤ)) (ranking : List (String × ℚ)) :
    Except PyError (List (String × ℤ)) :=
  applyFrom standings 1 ranking

/-- Python's `max` over a list of values (`ValueError` on empty, modelled
by `none`). -/
def pyMax : List ℤ → Option ℤ
  | [] => none
  | x :: xs => some (xs.foldl max x)

/-- The standings initialisation
`{driver["name"]: 0 for driver in available_drivers}` (lines 150 and 251). -/
def initStandings (drivers : List Driver) : List (String × ℤ) :=
  drivers.foldl (fun m d => dictSet m d.name 0) []

/-- The tie-break branch of `run_championship` (lines 233-254): run one race
among the contenders on the reserved track, take its top entry
unconditionally, and rebuild the standings as all-zero except the winner's
sentinel 1. -/
def tieBreak (drivers contending : List Driver) (L : ℕ → ℤ) (k : ℕ) :
    Except PyError (List (String × ℤ) × Option (Track × List Driver)) :=
  match (run_race contending EXTRA_TIE_TRACK L k).1 with
  | [] => .error .indexError
  | (winner, _) :: _ =>
    .ok (dictSet (initStandings drivers) winner 1, some (EXTRA_TIE_TRACK, contending))

/-- The season-resolution tail of `run_championship` (lines 224-254).
`overall` is the accumulated standings, `cls?` the last-computed
classification (`none` models the `NameError` on `current_classification`
when no race ever ran). Returns the champion-result standings together with
the tie-break race actually run, if any (track and entrant records). -/
def resolve_season : List (String × ℤ) → Option (List (String × ℤ)) →
    List Driver → (ℕ → ℤ) → ℕ →
    Except PyError (List (String × ℤ) × Option (Track × List Driver))
  | _, none, _, _, _ => .error (.nameError "current_classification")
  | overall, some cls, drivers, L, k =>
    match pyMax (cls.map Prod.snd) with
    | none => .error (.valueError "max arg is an empty sequence")
    | some highest =>
      let tied_leaders := cls.filter (fun p => p.2 == highest)
      if tied_leaders.length = 1 then
        .ok (overall, none)
      else
        let tied_names := tied_leaders.map Prod.fst
        let contending := drivers.filter (fun d => tied_names.contains d.name)
        tieBreak drivers contending L k

/-- The per-track loop of `run_championship` (lines 158-189): run each race,
apply its points, recompute the classification. Returns final standings, the
last classification (if any race ran), the draw counter, and the race log
(track and entrants of every `run_race` call). -/
def seasonLoop (drivers : List Driver) (L : ℕ → ℤ) :
    List Track → List (String × ℤ) → Option (List (String × ℤ)) → ℕ →
    Except PyError
      (List (String × ℤ) × Option (List (String × ℤ)) × ℕ × List (Track × List Driver))
  | [], standings, cls?, k => .ok (standings, cls?, k, [])
  | t :: ts, standings, _, k =>
    let rk := run_race drivers t L k
    match apply_race standings rk.1 with
    | .error e => .error e
    | .ok s' =>
      match seasonLoop drivers L ts s' (some (sortDesc s')) rk.2 with
      | .error e => .error e
      | .ok (fin, c, k2, logs) => .ok (fin, c, k2, (t, drivers) :: logs)

/-- `run_championship` (lines 138-254): initialise standings to zero, run
every scheduled race, then resolve the season (tie-break if needed).
Returns the champion-result standings and the log of every race run. -/
def run_championship (available_drivers : List Driver) (available_tracks : List Track)
    (L : ℕ → ℤ) :
    Except PyError (List (String × ℤ) × List (Track × List Driver)) :=
  match seasonLoop available_drivers L available_tracks
      (initStandings available_drivers) none 0 with
  | .error e => .error e
  | .ok (s, cls?, k, logs) =>
    match resolve_season s cls? available_drivers L k with
    | .error e => .error e
    | .ok (fin, tb?) => .ok (fin, logs ++ tb?.toList)

/-- The per-driver score list of one race, in input order, with the draw
counter starting at `k`: the contents of the performance dict when driver
names are distinct. -/
def scoresOf (track : Track) (L : ℕ → ℤ) : List Driver → ℕ → List (String × ℚ)
  | [], _ => []
  | d :: ds, k => (d.name, calculate_driver_score d track (L k)) :: scoresOf track L ds (k + 1)

/-- `standings[n] += p` as a total function: identity when `n` is absent
(used only under a membership hypothesis). -/
def addPts (s : List (String × ℤ)) (n : String) (p : ℤ) : List (String × ℤ) :=
  match dictGet? s n with
  | some v => dictSet s n (v + p)
  | none => s

/-! ### Dictionary lemmas -/

theorem dictGet?_dictSet_self {β : Type} (m : List (String × β)) (k : String) (v : β) :
    dictGet? (dictSet m k v) k = some v := by
  induction m with
  | nil => simp [dictSet, dictGet?]
  | cons p rest ih =>
    obtain ⟨k', v'⟩ := p
    by_cases h : k' = k
    · simp [dictSet, h, dictGet?]
    · simp [dictSet, h, dictGet?, ih]

theorem dictGet?_dictSet_of_ne {β : Type} (m : List (String × β)) {k k' : String} (v : β)
    (h : k ≠ k') : dictGet? (dictSet m k v) k' = dictGet? m k' := by
  induction m with
  | nil => simp [dictSet, dictGet?, h]
  | cons p rest ih =>
    obtain ⟨a, b⟩ := p
    by_cases ha : a = k
    · subst ha; simp [dictSet, dictGet?, h]
    · simp [dictSet, ha, dictGet?, ih]

theorem mem_map_fst_of_dictGet? {β : Type} {m : List (String × β)} {k : String} {v : β}
    (h : dictGet? m k = some v) : k ∈ m.map Prod.fst := by
  induction m with
  | nil => simp [dictGet?] at h
  | cons p rest ih =>
    obtain ⟨a, b⟩ := p
    by_cases ha : a = k
    · simp [ha]
    · simp only [dictGet?, if_neg ha] at h
      simp [ih h]

theorem dictGet?_isSome_of_mem {β : Type} {m : List (String × β)} {k : String}
    (h : k ∈ m.map Prod.fst) : ∃ v, dictGet? m k = some v := by
  induction m with
  | nil => simp at h
  | cons p rest ih =>
    obtain ⟨a, b⟩ := p
    by_cases ha : a = k
    · exact ⟨b, by simp [dictGet?, ha]⟩
    · simp only [List.map_cons, List.mem_cons] at h
      rcases h with h | h

      · exact absurd h.symm ha
      · obtain ⟨v, hv⟩ := ih h
        exact ⟨v, by simp [dictGet?, ha, hv]⟩

theorem map_fst_dictSet_of_mem {β : Type} {m : List (String × β)} {k : String} (v : β)
    (h : k ∈ m.map Prod.fst) : (dictSet m k v).map Prod.fst = m.map Prod.fst := by
  induction m with
  | nil => simp at h
  | cons p rest ih =>
    obtain ⟨a, b⟩ := p
    by_cases ha : a = k
    · simp [dictSet, ha]
    · simp only [List.map_cons, List.mem_cons] at h
      rcases h with h | h
      · exact absurd h.symm ha
      · simp [dictSet, ha, ih h]

theorem dictSet_of_not_mem {β : Type} {m : List (String × β)} {k : String} (v : β)
    (h : k ∉ m.map Prod.fst) : dictSet m k v = m ++ [(k, v)] := by
  induction m with
  | nil => simp [dictSet]
  | cons p rest ih =>
    obtain ⟨a, b⟩ := p
    simp only [List.map_cons, List.mem_cons, not_or] at h
    simp [dictSet, Ne.symm h.1, ih h.2]

theorem dictSet_dictSet_self {β : Type} (m : List (String × β)) (k : String) (v w : β) :
    dictSet (dictSet m k v) k w = dictSet m k w := by
  induction m with
  | nil => simp [dictSet]
  | cons p rest ih =>
    obtain ⟨a, b⟩ := p
    by_cases ha : a = k
    · simp [dictSet, ha]
    · simp [dictSet, ha, ih]

theorem dictSet_dictSet_comm {β : Type} {m : List (String × β)} {k k' : String} (v w : β)
    (h : k ≠ k') (hk : k ∈ m.map Prod.fst) :
    dictSet (dictSet m k v) k' w = dictSet (dictSet m k' w) k v := by
  induction m with
  | nil => simp at hk
  | cons p rest ih =>
    obtain ⟨a, b⟩ := p
    by_cases ha : a = k
    · subst ha; simp [dictSet, Ne.symm h, h]
    · by_cases hb : a = k'
      · subst hb; simp [dictSet, Ne.symm h, ha, h]
      · simp only [List.map_cons, List.mem_cons] at hk
        rcases hk with hk | hk
        · exact absurd hk.symm ha
        · simp [dictSet, ha, hb, ih hk]

theorem mem_iff_dictGet? {β : Type} {m : List (String × β)}
    (hnd : (m.map Prod.fst).Nodup) (k : String) (v : β) :
    (k, v) ∈ m ↔ dictGet? m k = some v := by
  induction m with
  | nil => simp [dictGet?]
  | cons p rest ih =>
    obtain ⟨a, b⟩ := p
    simp only [List.map_cons, List.nodup_cons] at hnd
    by_cases ha : a = k
    · subst ha
      have hget : dictGet? ((a, b) :: rest) a = some b := by simp [dictGet?]
      rw [hget, Option.some_inj, List.mem_cons]
      constructor
      · rintro (h | h)
        · exact ((Prod.mk.injEq _ _ _ _).mp h).2.symm
        · exact absurd (List.mem_map_of_mem Prod.fst h) hnd.1
      · rintro rfl
        exact Or.inl rfl
    · simp only [dictGet?, if_neg ha, List.mem_cons]
      rw [← ih hnd.2]
      constructor
      · rintro (h | h)
        · exact absurd (congrArg Prod.fst h).symm ha
        · exact h
      · exact Or.inr

/-! ### Sorting lemmas -/

theorem sortDesc_perm {β : Type} [LinearOrder β] (l : List (String × β)) :
    List.Perm (sortDesc l) l :=
  List.perm_insertionSort sndGE l

theorem sortDesc_sorted {β : Type} [LinearOrder β] (l : List (String × β)) :
    (sortDesc l).Sorted sndGE :=
  List.sorted_insertionSort sndGE l

theorem pair_sublist_sortDesc {β : Type} [LinearOrder β] {a b : String × β}
    {l : List (String × β)} (hab : b.2 ≤ a.2) (h : List.Sublist [a, b] l) :
    List.Sublist [a, b] (sortDesc l) :=
  List.pair_sublist_insertionSort hab h

/-! ### Score-loop lemmas -/

theorem scoreLoop_snd (track : Track) (L : ℕ → ℤ) :
    ∀ (ds : List Driver) (m : List (String × ℚ)) (k : ℕ),
      (scoreLoop track L ds m k).2 = k + ds.length
  | [], _, _ => rfl
  | d :: ds, m, k => by
    simp only [scoreLoop, scoreDraw]
    rw [scoreLoop_snd track L ds]
    simp only [List.length_cons]
    omega

theorem scoresOf_map_fst (track : Track) (L : ℕ → ℤ) :
    ∀ (ds : List Driver) (k : ℕ),
      (scoresOf track L ds k).map Prod.fst = ds.map Driver.name
  | [], _ => rfl
  | d :: ds, k => by
    simp only [scoresOf, List.map_cons, List.cons.injEq, true_and]
    exact scoresOf_map_fst track L ds (k + 1)

theorem scoresOf_length (track : Track) (L : ℕ → ℤ) (ds : List Driver) (k : ℕ) :
    (scoresOf track L ds k).length = ds.length := by
  have := congrArg List.length (scoresOf_map_fst track L ds k)
  simpa using this

theorem scoreLoop_eq_append (track : Track) (L : ℕ → ℤ) :
    ∀ (ds : List Driver) (m : List (String × ℚ)) (k : ℕ),
      (ds.map Driver.name).Nodup → (∀ d ∈ ds, d.name ∉ m.map Prod.fst) →
      (scoreLoop track L ds m k).1 = m ++ scoresOf track L ds k
  | [], m, k, _, _ => by simp [scoreLoop, scoresOf]
  | d :: ds, m, k, hnd, hdisj => by
    simp only [List.map_cons, List.nodup_cons] at hnd
    have hd : d.name ∉ m.map Prod.fst := hdisj d (List.mem_cons_self d ds)
    simp only [scoreLoop, scoreDraw]
    rw [scoreLoop_eq_append track L ds _ _ hnd.2, dictSet_of_not_mem _ hd]
    · simp [scoresOf]
    · intro e he
      rw [dictSet_of_not_mem _ hd]
      simp only [List.map_append, List.mem_append]
      rintro (hm | hm)
      · exact hdisj e (List.mem_cons_of_mem d he) hm
      · simp only [List.map_cons, List.map_nil, List.mem_cons, List.not_mem_nil] at hm
        rcases hm with hm | hm
        · exact hnd.1 (hm ▸ List.mem_map_of_mem Driver.name he)
        · exact hm.elim

theorem run_race_eq (drivers : List Driver) (track : Track) (L : ℕ → ℤ) (k : ℕ)
    (hnd : (drivers.map Driver.name).Nodup) :
    run_race drivers track L k
      = (rank_drivers (scoresOf track L drivers k), k + drivers.length) := by
  unfold run_race
  rw [Prod.ext_iff]
  constructor
  · simp only
    rw [scoreLoop_eq_append track L drivers [] k hnd (by simp)]
    simp
  · simp only
    rw [scoreLoop_snd]

/-! ### Max lemmas -/

theorem foldl_max_mem : ∀ (xs : List ℤ) (x : ℤ), xs.foldl max x ∈ x :: xs
  | [], x => by simp
  | y :: ys, x => by
    simp only [List.foldl_cons]
    have h := foldl_max_mem ys (max x y)
    rcases List.mem_cons.mp h with h | h
    · rw [h]
      rcases max_choice x y with hm | hm <;> rw [hm]
      · exact List.mem_cons_self _ _
      · exact List.mem_cons_of_mem _ (List.mem_cons_self _ _)
    · exact List.mem_cons_of_mem _ (List.mem_cons_of_mem _ h)

theorem le_foldl_max : ∀ (xs : List ℤ) (x : ℤ), ∀ y ∈ x :: xs, y ≤ xs.foldl max x
  | [], x => by simp
  | z :: zs, x => by
    intro y hy
    simp only [List.foldl_cons]
    have hx : x ≤ List.foldl max (max x z) zs :=
      le_trans (le_max_left x z) (le_foldl_max zs (max x z) _ (List.mem_cons_self _ _))
    have hz : z ≤ List.foldl max (max x z) zs :=
      le_trans (le_max_right x z) (le_foldl_max zs (max x z) _ (List.mem_cons_self _ _))
    rcases List.mem_cons.mp hy with h | h
    · exact h ▸ hx
    · rcases List.mem_cons.mp h with h | h
      · exact h ▸ hz
      · exact le_foldl_max zs (max x z) y (List.mem_cons_of_mem _ h)

theorem pyMax_mem {l : List ℤ} {x : ℤ} (h : pyMax l = some x) : x ∈ l := by
  cases l with
  | nil => simp [pyMax] at h
  | cons a as =>
    simp only [pyMax, Option.some_inj] at h
    exact h ▸ foldl_max_mem as a

theorem le_pyMax {l : List ℤ} {x : ℤ} (h : pyMax l = some x) : ∀ y ∈ l, y ≤ x := by
  cases l with
  | nil => simp [pyMax] at h
  | cons a as =>
    simp only [pyMax, Option.some_inj] at h
    exact fun y hy => h ▸ le_foldl_max as a y hy

/-! ### Points-application lemmas -/

theorem applyFrom_nil (s : List (String × ℤ)) (pos : ℕ) : applyFrom s pos [] = .ok s := rfl

theorem applyFrom_cons_none {s : List (String × ℤ)} {pos : ℕ} {nm : String} {sc : ℚ}
    {rest : List (String × ℚ)} (hp : points_lookup pos = none) :
    applyFrom s pos ((nm, sc) :: rest) = .error (.keyErrorPos pos) := by
  simp [applyFrom, hp]

theorem applyFrom_cons_name_absent {s : List (String × ℤ)} {pos : ℕ} {nm : String} {sc : ℚ}
    {rest : List (String × ℚ)} {pts : ℤ} (hp : points_lookup pos = some pts)
    (hg : dictGet? s nm = none) :
    applyFrom s pos ((nm, sc) :: rest) = .error (.keyErrorName nm) := by
  simp [applyFrom, hp, hg]

theorem applyFrom_cons_step {s : List (String × ℤ)} {pos : ℕ} {nm : String} {sc : ℚ}
    {rest : List (String × ℚ)} {pts v : ℤ} (hp : points_lookup pos = some pts)
    (hg : dictGet? s nm = some v) :
    applyFrom s pos ((nm, sc) :: rest) = applyFrom (dictSet s nm (v + pts)) (pos + 1) rest := by
  simp [applyFrom, hp, hg]

theorem applyFrom_ok_map_fst : ∀ {r : List (String × ℚ)} {s s' : List (String × ℤ)} {pos : ℕ},
    applyFrom s pos r = .ok s' → s'.map Prod.fst = s.map Prod.fst
  | [], s, s', pos, h => by
    rw [applyFrom_nil] at h
    cases h
    rfl
  | (nm, sc) :: rest, s, s', pos, h => by
    cases hp : points_lookup pos with
    | none => rw [applyFrom_cons_none hp] at h; cases h
    | some pts =>
      cases hg : dictGet? s nm with
      | none => rw [applyFrom_cons_name_absent hp hg] at h; cases h
      | some v =>
        rw [applyFrom_cons_step hp hg] at h
        rw [applyFrom_ok_map_fst h,
          map_fst_dictSet_of_mem _ (mem_map_fst_of_dictGet? hg)]

theorem addPts_of_get {s : List (String × ℤ)} {n : String} {v : ℤ} (p : ℤ)
    (h : dictGet? s n = some v) : addPts s n p = dictSet s n (v + p) := by
  simp [addPts, h]

theorem applyFrom_addPts :
    ∀ (r : List (String × ℚ)) (s : List (String × ℤ)) (pos : ℕ) (n : String) (p : ℤ),
    n ∈ s.map Prod.fst →
    applyFrom (addPts s n p) pos r = (applyFrom s pos r).map (fun u => addPts u n p)
  | [], s, pos, n, p, hn => by
    simp [applyFrom_nil, Except.map]
  | (nm, sc) :: rest, s, pos, n, p, hn => by
    obtain ⟨v, hv⟩ := dictGet?_isSome_of_mem hn
    rw [addPts_of_get p hv]
    cases hp : points_lookup pos with
    | none => rw [applyFrom_cons_none hp, applyFrom_cons_none hp]; rfl
    | some pts =>
      by_cases hnm : nm = n
      · subst hnm
        rw [applyFrom_cons_step hp (dictGet?_dictSet_self s nm (v + p)),
          applyFrom_cons_step hp hv, dictSet_dictSet_self, add_right_comm]
        have hmem : nm ∈ (dictSet s nm (v + pts)).map Prod.fst := by
          rw [map_fst_dictSet_of_mem _ hn]; exact hn
        have ih := applyFrom_addPts rest (dictSet s nm (v + pts)) (pos + 1) nm p hmem
        rw [addPts_of_get p (dictGet?_dictSet_self s nm (v + pts)),
          dictSet_dictSet_self] at ih
        exact ih
      · have hne : n ≠ nm := fun he => hnm he.symm
        have hg2 : dictGet? (dictSet s n (v + p)) nm = dictGet? s nm :=
          dictGet?_dictSet_of_ne s (v + p) hne
        cases hgm : dictGet? s nm with
        | none =>
          rw [applyFrom_cons_name_absent hp (hg2.trans hgm),
            applyFrom_cons_name_absent hp hgm]
          rfl
        | some w =>
          rw [applyFrom_cons_step hp (hg2.trans hgm), applyFrom_cons_step hp hgm,
            dictSet_dictSet_comm (v + p) (w + pts) hne hn]
          have hmem : n ∈ (dictSet s nm (w + pts)).map Prod.fst := by
            rw [map_fst_dictSet_of_mem _ (mem_map_fst_of_dictGet? hgm)]; exact hn
          have ih := applyFrom_addPts rest (dictSet s nm (w + pts)) (pos + 1) n p hmem
          rw [addPts_of_get p
            ((dictGet?_dictSet_of_ne s (w + pts) (fun he => hnm he)).trans hv)] at ih
          exact ih

theorem applyFrom_then_comm (r2 : List (String × ℚ)) :
    ∀ (r1 : List (String × ℚ)) (pos1 : ℕ) (s u : List (String × ℤ)),
    (applyFrom s pos1 r1).bind (fun t => apply_race t r2) = .ok u →
    (apply_race s r2).bind (fun t => applyFrom t pos1 r1) = .ok u
  | [], pos1, s, u, h => by
    rw [applyFrom_nil] at h
    simp only [Except.bind] at h
    rw [h]
    rfl
  | (nm, sc) :: rest, pos1, s, u, h => by
    cases hp : points_lookup pos1 with
    | none => rw [applyFrom_cons_none hp] at h; cases h
    | some pts =>
      cases hv : dictGet? s nm with
      | none => rw [applyFrom_cons_name_absent hp hv] at h; cases h
      | some v =>
        rw [applyFrom_cons_step hp hv] at h
        have ih := applyFrom_then_comm r2 rest (pos1 + 1) (dictSet s nm (v + pts)) u h
        have hL := applyFrom_addPts r2 s 1 nm pts (mem_map_fst_of_dictGet? hv)
        rw [addPts_of_get pts hv] at hL
        cases hw : apply_race s r2 with
        | error e =>
          rw [show apply_race (dictSet s nm (v + pts)) r2
              = (apply_race s r2).map (fun u => addPts u nm pts) from hL] at ih
          rw [hw] at ih
          cases ih
        | ok w =>
          rw [show apply_race (dictSet s nm (v + pts)) r2
              = (apply_race s r2).map (fun u => addPts u nm pts) from hL, hw] at ih
          simp only [Except.map, Except.bind] at ih ⊢
          obtain ⟨v', hv'⟩ : ∃ v', dictGet? w nm = some v' := by
            apply dictGet?_isSome_of_mem
            rw [applyFrom_ok_map_fst hw]
            exact mem_map_fst_of_dictGet? hv
          rw [applyFrom_cons_step hp hv']
          rw [addPts_of_get pts hv'] at ih
          exact ih

/-! ### Standings-initialisation lemmas -/

theorem initLoop_eq :
    ∀ (ds : List Driver) (m : List (String × ℤ)), (ds.map Driver.name).Nodup →
    (∀ d ∈ ds, d.name ∉ m.map Prod.fst) →
    ds.foldl (fun acc d => dictSet acc d.name 0) m = m ++ ds.map (fun d => (d.name, (0 : ℤ)))
  | [], m, _, _ => by simp
  | d :: ds, m, hnd, hdisj => by
    simp only [List.map_cons, List.nodup_cons] at hnd
    simp only [List.foldl_cons]
    rw [dictSet_of_not_mem _ (hdisj d (List.mem_cons_self d ds)),
      initLoop_eq ds _ hnd.2]
    · simp
    · intro e he
      simp only [List.map_append, List.mem_append, not_or]
      refine ⟨hdisj e (List.mem_cons_of_mem d he), ?_⟩
      simp only [List.map_cons, List.map_nil, List.mem_cons, List.not_mem_nil, or_false]
      intro hm
      exact hnd.1 (hm ▸ List.mem_map_of_mem Driver.name he)

theorem initStandings_eq (ds : List Driver) (hnd : (ds.map Driver.name).Nodup) :
    initStandings ds = ds.map (fun d => (d.name, (0 : ℤ))) := by
  unfold initStandings
  rw [initLoop_eq ds [] hnd (by simp)]
  simp

theorem initStandings_map_fst (ds : List Driver) (hnd : (ds.map Driver.name).Nodup) :
    (initStandings ds).map Prod.fst = ds.map Driver.name := by
  rw [initStandings_eq ds hnd, List.map_map]
  rfl

/-! ### Season-resolution lemmas -/

theorem resolve_season_no_cls (overall : List (String × ℤ)) (drivers : List Driver)
    (L : ℕ → ℤ) (k : ℕ) :
    resolve_season overall none drivers L k = .error (.nameError "current_classification") :=
  rfl

theorem resolve_season_empty_cls (overall : List (String × ℤ)) (drivers : List Driver)
    (L : ℕ → ℤ) (k : ℕ) :
    resolve_season overall (some []) drivers L k
      = .error (.valueError "max arg is an empty sequence") :=
  rfl

theorem resolve_season_single (overall cls : List (String × ℤ)) (drivers : List Driver)
    (L : ℕ → ℤ) (k : ℕ) (highest : ℤ)
    (hmax : pyMax (cls.map Prod.snd) = some highest)
    (huniq : (cls.filter (fun p => p.2 == highest)).length = 1) :
    resolve_season overall (some cls) drivers L k = .ok (overall, none) := by
  simp only [resolve_season]
  rw [hmax]
  simp [huniq]

theorem tieBreak_eq {contending : List Driver} {L : ℕ → ℤ} {k : ℕ} {w : String} {sc : ℚ}
    {rest : List (String × ℚ)} (drivers : List Driver)
    (hrr : (run_race contending EXTRA_TIE_TRACK L k).1 = (w, sc) :: rest) :
    tieBreak drivers contending L k
      = .ok (dictSet (initStandings drivers) w 1, some (EXTRA_TIE_TRACK, contending)) := by
  unfold tieBreak
  rw [hrr]

theorem resolve_season_tie (overall cls : List (String × ℤ)) (drivers : List Driver)
    (L : ℕ → ℤ) (k : ℕ) (highest : ℤ)
    (hmax : pyMax (cls.map Prod.snd) = some highest)
    (hlen : (cls.filter (fun p => p.2 == highest)).length ≠ 1) :
    resolve_season overall (some cls) drivers L k
      = tieBreak drivers
          (drivers.filter (fun d =>
            ((cls.filter (fun p => p.2 == highest)).map Prod.fst).contains d.name)) L k := by
  simp only [resolve_season]
  rw [hmax]
  simp [hlen]

/-! ### Season-loop lemmas -/

theorem seasonLoop_nil (drivers : List Driver) (L : ℕ → ℤ) (s : List (String × ℤ))
    (cls? : Option (List (String × ℤ))) (k : ℕ) :
    seasonLoop drivers L [] s cls? k = .ok (s, cls?, k, []) := rfl

theorem seasonLoop_cons_error {drivers : List Driver} {L : ℕ → ℤ} {t : Track} {ts : List Track}
    {s : List (String × ℤ)} {cls? : Option (List (String × ℤ))} {k : ℕ} {e : PyError}
    (h : apply_race s (run_race drivers t L k).1 = .error e) :
    seasonLoop drivers L (t :: ts) s cls? k = .error e := by
  simp only [seasonLoop]
  rw [h]

theorem seasonLoop_cons_ok_error {drivers : List Driver} {L : ℕ → ℤ} {t : Track}
    {ts : List Track} {s s' : List (String × ℤ)} {cls? : Option (List (String × ℤ))}
    {k : ℕ} {e : PyError}
    (h : apply_race s (run_race drivers t L k).1 = .ok s')
    (hrec : seasonLoop drivers L ts s' (some (sortDesc s')) (run_race drivers t L k).2
      = .error e) :
    seasonLoop drivers L (t :: ts) s cls? k = .error e := by
  simp only [seasonLoop, h, hrec]

theorem seasonLoop_cons_ok_ok {drivers : List Driver} {L : ℕ → ℤ} {t : Track}
    {ts : List Track} {s s' fin : List (String × ℤ)}
    {cls? c : Option (List (String × ℤ))} {k k2 : ℕ} {logs : List (Track × List Driver)}
    (h : apply_race s (run_race drivers t L k).1 = .ok s')
    (hrec : seasonLoop drivers L ts s' (some (sortDesc s')) (run_race drivers t L k).2
      = .ok (fin, c, k2, logs)) :
    seasonLoop drivers L (t :: ts) s cls? k = .ok (fin, c, k2, (t, drivers) :: logs) := by
  simp only [seasonLoop, h, hrec]

/-- Success of the season loop: the final standings keep the initial key set,
and the final classification is either the incoming one (no race ran) or the
sorted snapshot of some standings with that same key set. -/
theorem seasonLoop_ok_info {drivers : List Driver} {L : ℕ → ℤ} :
    ∀ {ts : List Track} {s : List (String × ℤ)} {cls? : Option (List (String × ℤ))} {k : ℕ}
    {fin : List (String × ℤ)} {c : Option (List (String × ℤ))} {k2 : ℕ}
    {logs : List (Track × List Driver)},
    seasonLoop drivers L ts s cls? k = .ok (fin, c, k2, logs) →
    fin.map Prod.fst = s.map Prod.fst ∧
      (c = cls? ∨ ∃ u : List (String × ℤ), c = some (sortDesc u) ∧
        u.map Prod.fst = s.map Prod.fst)
  | [], s, cls?, k, fin, c, k2, logs, h => by
    rw [seasonLoop_nil] at h
    cases h
    exact ⟨rfl, Or.inl rfl⟩
  | t :: ts, s, cls?, k, fin, c, k2, logs, h => by
    cases happ : apply_race s (run_race drivers t L k).1 with
    | error e => rw [seasonLoop_cons_error happ] at h; cases h
    | ok s' =>
      cases hrec : seasonLoop drivers L ts s' (some (sortDesc s')) (run_race drivers t L k).2 with
      | error e => rw [seasonLoop_cons_ok_error happ hrec] at h; cases h
      | ok val =>
        obtain ⟨fin', c', k2', logs'⟩ := val
        rw [seasonLoop_cons_ok_ok happ hrec] at h
        injection h with h
        simp only [Prod.mk.injEq] at h
        obtain ⟨rfl, rfl, -, -⟩ := h
        have hkeys' : s'.map Prod.fst = s.map Prod.fst := applyFrom_ok_map_fst happ
        obtain ⟨ih1, ih2⟩ := seasonLoop_ok_info hrec
        refine ⟨ih1.trans hkeys', ?_⟩
        rcases ih2 with ih2 | ⟨u, hu1, hu2⟩
        · exact Or.inr ⟨s', ih2, hkeys'⟩
        · exact Or.inr ⟨u, hu1, hu2.trans hkeys'⟩

theorem seasonLoop_empty_roster (L : ℕ → ℤ) :
    ∀ (t : Track) (ts : List Track) (cls? : Option (List (String × ℤ))) (k : ℕ),
    seasonLoop [] L (t :: ts) [] cls? k
      = .ok ([], some [], k, (t :: ts).map (fun t' => (t', [])))
  | t, [], cls?, k => by
    have happ : apply_race [] (run_race [] t L k).1 = .ok [] := rfl
    have hrec : seasonLoop [] L [] [] (some (sortDesc [])) (run_race [] t L k).2
        = .ok ([], some (sortDesc []), (run_race [] t L k).2, []) := seasonLoop_nil [] L _ _ _
    exact seasonLoop_cons_ok_ok happ hrec
  | t, t' :: ts, cls?, k => by
    have happ : apply_race [] (run_race [] t L k).1 = .ok [] := rfl
    have hrec := seasonLoop_empty_roster L t' ts (some (sortDesc [])) (run_race [] t L k).2
    exact seasonLoop_cons_ok_ok happ hrec

/-! ### Championship-level lemmas -/

theorem run_championship_no_tracks (drivers : List Driver) (L : ℕ → ℤ) :
    run_championship drivers [] L = .error (.nameError "current_classification") := rfl

theorem run_championship_empty_roster (tracks : List Track) (L : ℕ → ℤ)
    (h : tracks ≠ []) :
    run_championship [] tracks L = .error (.valueError "max arg is an empty sequence") := by
  obtain ⟨t, ts, rfl⟩ := List.exists_cons_of_ne_nil h
  unfold run_championship
  rw [show initStandings [] = [] from rfl, seasonLoop_empty_roster L t ts none 0]
  rfl

/-! ### Derived race lemmas -/

theorem contains_iff_mem {l : List String} {a : String} : l.contains a = true ↔ a ∈ l := by
  simp [List.contains_iff_exists_mem_beq]

theorem run_race_length (ds : List Driver) (t : Track) (L : ℕ → ℤ) (k : ℕ)
    (hnd : (ds.map Driver.name).Nodup) :
    (run_race ds t L k).1.length = ds.length := by
  rw [run_race_eq ds t L k hnd]
  simp only [rank_drivers, sortDesc, List.length_insertionSort]
  exact scoresOf_length t L ds k

theorem run_race_mem_name {ds : List Driver} {t : Track} {L : ℕ → ℤ} {k : ℕ}
    {p : String × ℚ} (hnd : (ds.map Driver.name).Nodup)
    (hp : p ∈ (run_race ds t L k).1) : p.1 ∈ ds.map Driver.name := by
  rw [run_race_eq ds t L k hnd] at hp
  have hmem : p ∈ scoresOf t L ds k := (sortDesc_perm _).mem_iff.mp hp
  rw [← scoresOf_map_fst t L ds k]
  exact List.mem_map_of_mem Prod.fst hmem

theorem run_race_head_name {ds : List Driver} {t : Track} {L : ℕ → ℤ} {k : ℕ}
    {w : String} {sc : ℚ} {rest : List (String × ℚ)}
    (hnd : (ds.map Driver.name).Nodup)
    (h : (run_race ds t L k).1 = (w, sc) :: rest) : w ∈ ds.map Driver.name := by
  have hmem : (w, sc) ∈ (run_race ds t L k).1 := by
    rw [h]; exact List.mem_cons_self _ _
  exact run_race_mem_name hnd hmem

theorem run_race_ne_nil {ds : List Driver} {t : Track} {L : ℕ → ℤ} {k : ℕ}
    (hnd : (ds.map Driver.name).Nodup) (hne : ds ≠ []) :
    (run_race ds t L k).1 ≠ [] := by
  intro hnil
  have hlen := run_race_length ds t L k hnd
  rw [hnil] at hlen
  exact hne (List.length_eq_zero.mp hlen.symm)

theorem filter_names_nodup {ds : List Driver} (p : Driver → Bool)
    (hnd : (ds.map Driver.name).Nodup) : ((ds.filter p).map Driver.name).Nodup :=
  ((List.filter_sublist ds).map Driver.name).nodup hnd

theorem initStandings_get (drivers : List Driver) (hnd : (drivers.map Driver.name).Nodup)
    {d : Driver} (hd : d ∈ drivers) : dictGet? (initStandings drivers) d.name = some 0 := by
  have hkeys : ((initStandings drivers).map Prod.fst).Nodup := by
    rw [initStandings_map_fst drivers hnd]; exact hnd
  rw [← mem_iff_dictGet? hkeys]
  rw [initStandings_eq drivers hnd]
  exact List.mem_map_of_mem (fun d => (d.name, (0 : ℤ))) hd

theorem resolve_season_ok_keys {overall : List (String × ℤ)}
    {cls? : Option (List (String × ℤ))} {drivers : List Driver} {L : ℕ → ℤ} {k : ℕ}
    {fin : List (String × ℤ)} {tb : Option (Track × List Driver)}
    (hnd : (drivers.map Driver.name).Nodup)
    (hover : overall.map Prod.fst = drivers.map Driver.name)
    (h : resolve_season overall cls? drivers L k = .ok (fin, tb)) :
    fin.map Prod.fst = drivers.map Driver.name := by
  cases cls? with
  | none => rw [resolve_season_no_cls] at h; cases h
  | some cls =>
    cases hmax : pyMax (cls.map Prod.snd) with
    | none =>
      have hclsnil : cls = [] := by
        cases cls with
        | nil => rfl
        | cons a as => simp [pyMax] at hmax
      subst hclsnil
      rw [resolve_season_empty_cls] at h
      cases h
    | some highest =>
      by_cases hlen : (cls.filter (fun p => p.2 == highest)).length = 1
      · rw [resolve_season_single overall cls drivers L k highest hmax hlen] at h
        cases h
        exact hover
      · rw [resolve_season_tie overall cls drivers L k highest hmax hlen] at h
        cases hrr : (run_race (drivers.filter (fun d =>
            ((cls.filter (fun p => p.2 == highest)).map Prod.fst).contains d.name))
            EXTRA_TIE_TRACK L k).1 with
        | nil => unfold tieBreak at h; rw [hrr] at h; cases h
        | cons q rest =>
          obtain ⟨w, sc⟩ := q
          rw [tieBreak_eq drivers hrr] at h
          cases h
          have hndC := filter_names_nodup
            (fun d => ((cls.filter (fun p => p.2 == highest)).map Prod.fst).contains d.name) hnd
          have hw : w ∈ (drivers.filter (fun d =>
              ((cls.filter (fun p => p.2 == highest)).map Prod.fst).contains d.name)).map
              Driver.name := run_race_head_name hndC hrr
          have hw' : w ∈ drivers.map Driver.name :=
            ((List.filter_sublist drivers).map Driver.name).subset hw
          rw [map_fst_dictSet_of_mem 1
            (by rw [initStandings_map_fst drivers hnd]; exact hw')]
          exact initStandings_map_fst drivers hnd

/-- Shape of the tie branch: with at least two classification entries at the
maximum, `resolve_season` runs one race among exactly the tied drivers on the
reserved track and rebuilds the standings around its top entry. -/
theorem resolve_tie_shape (drivers : List Driver) (standings : List (String × ℤ))
    (L : ℕ → ℤ) (k : ℕ) (highest : ℤ)
    (hnd : (drivers.map Driver.name).Nodup)
    (hkeys : standings.map Prod.fst = drivers.map Driver.name)
    (hmax : pyMax ((sortDesc standings).map Prod.snd) = some highest)
    (htie : 2 ≤ ((sortDesc standings).filter (fun p => p.2 == highest)).length) :
    ∃ (w : String) (sc : ℚ) (rest : List (String × ℚ)),
      (run_race (drivers.filter (fun d =>
          (((sortDesc standings).filter (fun p => p.2 == highest)).map
            Prod.fst).contains d.name))
        EXTRA_TIE_TRACK L k).1 = (w, sc) :: rest ∧
      resolve_season standings (some (sortDesc standings)) drivers L k
        = .ok (dictSet (initStandings drivers) w 1,
            some (EXTRA_TIE_TRACK, drivers.filter (fun d =>
              (((sortDesc standings).filter (fun p => p.2 == highest)).map
                Prod.fst).contains d.name))) ∧
      w ∈ drivers.map Driver.name := by
  have hlen : ((sortDesc standings).filter (fun p => p.2 == highest)).length ≠ 1 := by
    omega
  have htiene : (sortDesc standings).filter (fun p => p.2 == highest) ≠ [] := by
    intro hnil
    rw [hnil] at htie
    simp at htie
  obtain ⟨q, qs, hq⟩ := List.exists_cons_of_ne_nil htiene
  have hqmem : q ∈ (sortDesc standings).filter (fun p => p.2 == highest) := by
    rw [hq]; exact List.mem_cons_self _ _
  have hqcls : q ∈ sortDesc standings := (List.mem_filter.mp hqmem).1
  have hqstand : q ∈ standings := (sortDesc_perm standings).mem_iff.mp hqcls
  have hqname : q.1 ∈ drivers.map Driver.name := by
    rw [← hkeys]
    exact List.mem_map_of_mem Prod.fst hqstand
  obtain ⟨d, hd, hdname⟩ := List.mem_map.mp hqname
  have hdC : d ∈ drivers.filter (fun d =>
      (((sortDesc standings).filter (fun p => p.2 == highest)).map
        Prod.fst).contains d.name) := by
    rw [List.mem_filter]
    refine ⟨hd, ?_⟩
    rw [contains_iff_mem, hdname]
    exact List.mem_map_of_mem Prod.fst hqmem
  have hCne := List.ne_nil_of_mem hdC
  have hndC := filter_names_nodup (fun d =>
    (((sortDesc standings).filter (fun p => p.2 == highest)).map
      Prod.fst).contains d.name) hnd
  cases hrr : (run_race (drivers.filter (fun d =>
      (((sortDesc standings).filter (fun p => p.2 == highest)).map
        Prod.fst).contains d.name)) EXTRA_TIE_TRACK L k).1 with
  | nil => exact absurd hrr (run_race_ne_nil hndC hCne)
  | cons p rest =>
    obtain ⟨w, sc⟩ := p
    refine ⟨w, sc, rest, rfl, ?_, ?_⟩
    · rw [resolve_season_tie standings (sortDesc standings) drivers L k highest hmax hlen,
        tieBreak_eq drivers hrr]
    · exact ((List.filter_sublist drivers).map Driver.name).subset
        (run_race_head_name hndC hrr)

/-! ### Claim theorems -/

/-- Claim C1, counterexample: the claim says every position beyond 3 yields
0 points with no failure, but the points table has no entry for position 4
(`POINTS_SYSTEM[4]` is a `KeyError`, not 0), and applying a 4-entry ranking
fails with `KeyError` on position 4 instead of succeeding. -/
theorem C1_counterexample :
    points_lookup 4 = none ∧ (none : Option ℤ) ≠ some 0 ∧
    apply_race [("A", 0), ("B", 0), ("C", 0), ("D", 0)]
        [("A", 4), ("B", 3), ("C", 2), ("D", 1)]
      = .error (.keyErrorPos 4) := by
  refine ⟨by decide, by decide, ?_⟩
  rfl

/-- Claim C1, amended: positions 1-3 look up 25/18/15 in the Points Table;
any position beyond 3 has no entry (the lookup returns nothing), and the
points loop applied to a Ranking with more than 3 entries raises `KeyError`
at position 4 — it does not award 0 and succeed. -/
theorem C1_amended :
    points_lookup 1 = some 25 ∧ points_lookup 2 = some 18 ∧ points_lookup 3 = some 15 ∧
    (∀ p : ℕ, 3 < p → points_lookup p = none) ∧
    (∀ (s : List (String × ℤ)) (r : List (String × ℚ)), 3 < r.length →
      (∀ nm ∈ (r.take 3).map Prod.fst, nm ∈ s.map Prod.fst) →
      apply_race s r = .error (.keyErrorPos 4)) := by
  refine ⟨rfl, rfl, rfl, ?_, ?_⟩
  · intro p hp
    have h1 : (p == 1) = false := beq_eq_false_iff_ne.mpr (by omega)
    have h2 : (p == 2) = false := beq_eq_false_iff_ne.mpr (by omega)
    have h3 : (p == 3) = false := beq_eq_false_iff_ne.mpr (by omega)
    simp [points_lookup, POINTS_SYSTEM, List.lookup, h1, h2, h3]
  · intro s r hlen hnames
    match r, hlen with
    | (n1, s1) :: (n2, s2) :: (n3, s3) :: (n4, s4) :: r', _ =>
      obtain ⟨v1, hv1⟩ := dictGet?_isSome_of_mem (hnames n1 (by simp))
      have hm2 : n2 ∈ (dictSet s n1 (v1 + 25)).map Prod.fst := by
        rw [map_fst_dictSet_of_mem _ (mem_map_fst_of_dictGet? hv1)]
        exact hnames n2 (by simp)
      obtain ⟨v2, hv2⟩ := dictGet?_isSome_of_mem hm2
      have hm3 : n3 ∈ (dictSet (dictSet s n1 (v1 + 25)) n2 (v2 + 18)).map Prod.fst := by
        rw [map_fst_dictSet_of_mem _ hm2, map_fst_dictSet_of_mem _ (mem_map_fst_of_dictGet? hv1)]
        exact hnames n3 (by simp)
      obtain ⟨v3, hv3⟩ := dictGet?_isSome_of_mem hm3
      unfold apply_race
      rw [applyFrom_cons_step (show points_lookup 1 = some 25 from rfl) hv1,
        applyFrom_cons_step (show points_lookup 2 = some 18 from rfl) hv2,
        applyFrom_cons_step (show points_lookup 3 = some 15 from rfl) hv3,
        applyFrom_cons_none (show points_lookup 4 = none from rfl)]

/-- Claim C1 witness: the amended claim evaluated at position 4 and at a
concrete 4-entry ranking over a 4-competitor standings table. -/
theorem C1_amended_witness :
    points_lookup 4 = none ∧
    apply_race [("A", 0), ("B", 0), ("C", 0), ("D", 0), ("E", 0)]
        [("A", 4), ("B", 3), ("C", 2), ("D", 1)]
      = .error (.keyErrorPos 4) :=
  ⟨C1_amended.2.2.2.1 4 (by decide),
   C1_amended.2.2.2.2 [("A", 0), ("B", 0), ("C", 0), ("D", 0), ("E", 0)]
     [("A", 4), ("B", 3), ("C", 2), ("D", 1)] (by decide) (by decide)⟩

/-- Claim C2, counterexample: the engine does not fail with
`InvalidConfiguration`. On an empty roster it crashes with a `ValueError`
from `max()` over an empty sequence; on an empty track sequence it crashes
with a `NameError` on the never-assigned classification variable. -/
theorem C2_counterexample :
    run_championship [] [⟨"Monaco", 0.8, 0.2⟩] (fun _ => 0)
        = .error (.valueError "max arg is an empty sequence") ∧
    run_championship DRIVERS [] (fun _ => 0)
        = .error (.nameError "current_classification") ∧
    PyError.valueError "max arg is an empty sequence" ≠ PyError.invalidConfiguration ∧
    PyError.nameError "current_classification" ≠ PyError.invalidConfiguration :=
  ⟨by with_unfolding_all rfl, rfl, by decide, by decide⟩

/-- Claim C2, amended: for an empty roster (and at least one track) the
championship fails with the incidental `ValueError` raised by `max()` on an
empty sequence; for an empty track sequence it fails with the incidental
`NameError` on `current_classification`; no `InvalidConfiguration` check
exists. -/
theorem C2_amended :
    (∀ (tracks : List Track) (L : ℕ → ℤ), tracks ≠ [] →
      run_championship [] tracks L = .error (.valueError "max arg is an empty sequence")) ∧
    (∀ (drivers : List Driver) (L : ℕ → ℤ),
      run_championship drivers [] L = .error (.nameError "current_classification")) :=
  ⟨fun tracks L h => run_championship_empty_roster tracks L h,
   fun drivers L => run_championship_no_tracks drivers L⟩

/-- Claim C2 witness: the amended behaviour at a one-track season with an
empty roster, and at the fixed roster with no tracks. -/
theorem C2_amended_witness :
    run_championship [] [⟨"Suzuka", 0.75, 0.8⟩] (fun _ => 1)
        = .error (.valueError "max arg is an empty sequence") ∧
    run_championship DRIVERS [] (fun _ => 1)
        = .error (.nameError "current_classification") :=
  ⟨C2_amended.1 [⟨"Suzuka", 0.75, 0.8⟩] (fun _ => 1) (List.cons_ne_nil _ _),
   C2_amended.2 DRIVERS (fun _ => 1)⟩

/-- Claim C3: when two or more competitors share the maximum, the resolved
result is a standings table with every season competitor at 0 except the
tie-break winner at sentinel 1; the winner is the top entry of the single
tie-break ranking, taken unconditionally (no constraint on the rest of that
ranking); exactly one tie-break race is logged. -/
theorem C3_tie_break_result (drivers : List Driver) (standings : List (String × ℤ))
    (L : ℕ → ℤ) (k : ℕ) (highest : ℤ)
    (hnd : (drivers.map Driver.name).Nodup)
    (hkeys : standings.map Prod.fst = drivers.map Driver.name)
    (hmax : pyMax ((sortDesc standings).map Prod.snd) = some highest)
    (htie : 2 ≤ ((sortDesc standings).filter (fun p => p.2 == highest)).length) :
    ∃ (w : String) (sc : ℚ) (rest : List (String × ℚ)),
      (run_race (drivers.filter (fun d =>
          (((sortDesc standings).filter (fun p => p.2 == highest)).map
            Prod.fst).contains d.name))
        EXTRA_TIE_TRACK L k).1 = (w, sc) :: rest ∧
      resolve_season standings (some (sortDesc standings)) drivers L k
        = .ok (dictSet (initStandings drivers) w 1,
            some (EXTRA_TIE_TRACK, drivers.filter (fun d =>
              (((sortDesc standings).filter (fun p => p.2 == highest)).map
                Prod.fst).contains d.name))) ∧
      w ∈ drivers.map Driver.name ∧
      (∀ d ∈ drivers, dictGet? (dictSet (initStandings drivers) w 1) d.name
        = some (if d.name = w then 1 else 0)) := by
  obtain ⟨w, sc, rest, hrr, hres, hw⟩ :=
    resolve_tie_shape drivers standings L k highest hnd hkeys hmax htie
  refine ⟨w, sc, rest, hrr, hres, hw, ?_⟩
  intro d hd
  by_cases hdw : d.name = w
  · rw [hdw, dictGet?_dictSet_self]
    simp
  · rw [dictGet?_dictSet_of_ne (initStandings drivers) 1 (fun he => hdw he.symm),
      initStandings_get drivers hnd hd]
    simp [hdw]

/-- Claim C3 witness: a concrete season with A and B tied at 40 and C at 33;
the tie-break race is won by B, and the resolved table is A 0, B 1, C 0. -/
theorem C3_tie_break_result_witness :
    ∃ (w : String) (sc : ℚ) (rest : List (String × ℚ)),
      (run_race ([⟨"A", 5, 5⟩, ⟨"B", 6, 6⟩, ⟨"C", 1, 1⟩].filter (fun d =>
          (((sortDesc [("A", 40), ("B", 40), ("C", 33)]).filter
            (fun p => p.2 == (40 : ℤ))).map Prod.fst).contains d.name))
        EXTRA_TIE_TRACK (fun _ => 0) 0).1 = (w, sc) :: rest ∧
      resolve_season [("A", 40), ("B", 40), ("C", 33)]
          (some (sortDesc [("A", 40), ("B", 40), ("C", 33)]))
          [⟨"A", 5, 5⟩, ⟨"B", 6, 6⟩, ⟨"C", 1, 1⟩] (fun _ => 0) 0
        = .ok (dictSet (initStandings [⟨"A", 5, 5⟩, ⟨"B", 6, 6⟩, ⟨"C", 1, 1⟩]) w 1,
            some (EXTRA_TIE_TRACK, [⟨"A", 5, 5⟩, ⟨"B", 6, 6⟩, ⟨"C", 1, 1⟩].filter (fun d =>
              (((sortDesc [("A", 40), ("B", 40), ("C", 33)]).filter
                (fun p => p.2 == (40 : ℤ))).map Prod.fst).contains d.name))) ∧
      w ∈ ([⟨"A", 5, 5⟩, ⟨"B", 6, 6⟩, ⟨"C", 1, 1⟩] : List Driver).map Driver.name ∧
      (∀ d ∈ ([⟨"A", 5, 5⟩, ⟨"B", 6, 6⟩, ⟨"C", 1, 1⟩] : List Driver),
        dictGet? (dictSet (initStandings [⟨"A", 5, 5⟩, ⟨"B", 6, 6⟩, ⟨"C", 1, 1⟩]) w 1) d.name
          = some (if d.name = w then 1 else 0)) :=
  C3_tie_break_result [⟨"A", 5, 5⟩, ⟨"B", 6, 6⟩, ⟨"C", 1, 1⟩]
    [("A", 40), ("B", 40), ("C", 33)] (fun _ => 0) 0 40
    (by decide) (by decide) (by with_unfolding_all decide) (by with_unfolding_all decide)

/-- Claim C4: the tie-break entrant set is exactly the drivers whose final
points equal the maximum (their full records, filtered from the roster); the
race runs on the designated `EXTRA_TIE_TRACK`, whose name differs from every
regular-season track. -/
theorem C4_tie_break_participants (drivers : List Driver) (standings : List (String × ℤ))
    (L : ℕ → ℤ) (k : ℕ) (highest : ℤ)
    (hnd : (drivers.map Driver.name).Nodup)
    (hkeys : standings.map Prod.fst = drivers.map Driver.name)
    (hmax : pyMax ((sortDesc standings).map Prod.snd) = some highest)
    (htie : 2 ≤ ((sortDesc standings).filter (fun p => p.2 == highest)).length) :
    ∃ fin : List (String × ℤ),
      resolve_season standings (some (sortDesc standings)) drivers L k
        = .ok (fin, some (EXTRA_TIE_TRACK,
            drivers.filter (fun d => dictGet? standings d.name == some highest))) ∧
      (∀ t ∈ TRACKS, t.name ≠ EXTRA_TIE_TRACK.name) := by
  obtain ⟨w, sc, rest, hrr, hres, hw⟩ :=
    resolve_tie_shape drivers standings L k highest hnd hkeys hmax htie
  have hkeysnodup : (standings.map Prod.fst).Nodup := by rw [hkeys]; exact hnd
  have hbridge : ∀ nm : String,
      nm ∈ ((sortDesc standings).filter (fun p => p.2 == highest)).map Prod.fst ↔
        dictGet? standings nm = some highest := by
    intro nm
    constructor
    · intro hmem
      obtain ⟨q, hq, rfl⟩ := List.mem_map.mp hmem
      obtain ⟨hqcls, hqval⟩ := List.mem_filter.mp hq
      simp only [beq_iff_eq] at hqval
      have hqstand : q ∈ standings := (sortDesc_perm standings).mem_iff.mp hqcls
      rw [← mem_iff_dictGet? hkeysnodup]
      rw [← hqval]
      exact hqstand
    · intro hget
      have hmemst : (nm, highest) ∈ standings :=
        (mem_iff_dictGet? hkeysnodup nm highest).mpr hget
      have hcls : (nm, highest) ∈ sortDesc standings :=
        (sortDesc_perm standings).mem_iff.mpr hmemst
      have htied : (nm, highest) ∈ (sortDesc standings).filter
          (fun p => p.2 == highest) := by
        rw [List.mem_filter]
        exact ⟨hcls, by simp⟩
      exact List.mem_map_of_mem Prod.fst htied
  have hfil : drivers.filter (fun d =>
        (((sortDesc standings).filter (fun p => p.2 == highest)).map
          Prod.fst).contains d.name)
      = drivers.filter (fun d => dictGet? standings d.name == some highest) := by
    apply List.filter_congr
    intro d _
    by_cases hmem : d.name ∈ ((sortDesc standings).filter
        (fun p => p.2 == highest)).map Prod.fst
    · rw [contains_iff_mem.mpr hmem]
      exact (beq_iff_eq.mpr ((hbridge d.name).mp hmem)).symm
    · have h1 : (((sortDesc standings).filter (fun p => p.2 == highest)).map
          Prod.fst).contains d.name = false :=
        Bool.eq_false_iff.mpr (fun h => hmem (contains_iff_mem.mp h))
      rw [h1]
      exact (beq_eq_false_iff_ne.mpr (fun h => hmem ((hbridge d.name).mpr h))).symm
  refine ⟨dictSet (initStandings drivers) w 1, ?_, by decide⟩
  rw [← hfil]
  exact hres

/-- Claim C4 witness: with A and B tied at 40 and C at 33, the tie-break
entrants are exactly the drivers whose points equal 40, and the reserved
track's name differs from every season track's. -/
theorem C4_tie_break_participants_witness :
    ∃ fin : List (String × ℤ),
      resolve_season [("A", 40), ("B", 40), ("C", 33)]
          (some (sortDesc [("A", 40), ("B", 40), ("C", 33)]))
          [⟨"A", 5, 5⟩, ⟨"B", 6, 6⟩, ⟨"C", 1, 1⟩] (fun _ => 0) 0
        = .ok (fin, some (EXTRA_TIE_TRACK,
            [⟨"A", 5, 5⟩, ⟨"B", 6, 6⟩, ⟨"C", 1, 1⟩].filter (fun d =>
              dictGet? [("A", 40), ("B", 40), ("C", 33)] d.name == some (40 : ℤ)))) ∧
      (∀ t ∈ TRACKS, t.name ≠ EXTRA_TIE_TRACK.name) :=
  C4_tie_break_participants [⟨"A", 5, 5⟩, ⟨"B", 6, 6⟩, ⟨"C", 1, 1⟩]
    [("A", 40), ("B", 40), ("C", 33)] (fun _ => 0) 0 40
    (by decide) (by decide) (by with_unfolding_all decide) (by with_unfolding_all decide)

/-- Claim C5: with a unique maximum holder, season resolution returns the
accumulated standings unchanged (no tie-break race), and the top of the
classification is that sole maximum holder. -/
theorem C5_no_tie_frame (standings : List (String × ℤ)) (drivers : List Driver)
    (L : ℕ → ℤ) (k : ℕ) (highest : ℤ)
    (hmax : pyMax ((sortDesc standings).map Prod.snd) = some highest)
    (huniq : ((sortDesc standings).filter (fun p => p.2 == highest)).length = 1) :
    resolve_season standings (some (sortDesc standings)) drivers L k
      = .ok (standings, none) ∧
    ∃ (p : String × ℤ) (rest : List (String × ℤ)),
      sortDesc standings = p :: rest ∧ p.2 = highest ∧
      (sortDesc standings).filter (fun q => q.2 == highest) = [p] := by
  refine ⟨resolve_season_single standings _ drivers L k highest hmax huniq, ?_⟩
  have hne : sortDesc standings ≠ [] := by
    intro hnil
    rw [hnil] at hmax
    simp [pyMax] at hmax
  obtain ⟨p, rest, hcons⟩ := List.exists_cons_of_ne_nil hne
  have hsorted := sortDesc_sorted standings
  rw [hcons] at hsorted
  have hle : p.2 ≤ highest := le_pyMax hmax p.2 (by
    rw [hcons]
    exact List.mem_map_of_mem Prod.snd (List.mem_cons_self _ _))
  have hp2 : p.2 = highest := by
    have hmem := pyMax_mem hmax
    rw [hcons] at hmem
    simp only [List.map_cons, List.mem_cons] at hmem
    rcases hmem with hmem | hmem
    · exact hmem.symm
    · obtain ⟨q, hq, hq2⟩ := List.mem_map.mp hmem
      have hrel := List.rel_of_sorted_cons hsorted q hq
      exact le_antisymm hle (hq2 ▸ hrel)
  refine ⟨p, rest, hcons, hp2, ?_⟩
  rw [hcons, List.filter_cons_of_pos (by simp [hp2])] at huniq ⊢
  simp only [List.length_cons, Nat.add_left_eq_self, Nat.add_eq_zero] at huniq
  have hnil : rest.filter (fun q => q.2 == highest) = [] := by
    apply List.length_eq_zero.mp
    omega
  rw [hnil]

/-- Claim C5 witness: standings A 40, B 33 have a unique maximum holder A;
resolution returns them unchanged with A on top. -/
theorem C5_no_tie_frame_witness :
    resolve_season [("A", 40), ("B", 33)] (some (sortDesc [("A", 40), ("B", 33)]))
        DRIVERS (fun _ => 0) 0
      = .ok ([("A", 40), ("B", 33)], none) ∧
    ∃ (p : String × ℤ) (rest : List (String × ℤ)),
      sortDesc [("A", 40), ("B", 33)] = p :: rest ∧ p.2 = (40 : ℤ) ∧
      (sortDesc [("A", 40), ("B", 33)]).filter (fun q => q.2 == (40 : ℤ)) = [p] :=
  C5_no_tie_frame [("A", 40), ("B", 33)] DRIVERS (fun _ => 0) 0 40
    (by with_unfolding_all decide) (by with_unfolding_all decide)

/-- Claim C6, counterexample: on the track with difficulty 0.8 and
speed_bias 0.2 with luck 0, competitor 1 (skill 10, consistency 7) scores
10·0.8 + 7·0.2 = 9.4, not the 8.4 the claim asserts — so the claimed scores
(8.4, 8.4, 9.8) are wrong and competitors 1 and 2 are not tied there. -/
theorem C6_counterexample :
    calculate_driver_score ⟨"Juan Manuel Fangio", 10, 7⟩ ⟨"Monaco", 0.8, 0.2⟩ 0 = 9.4 ∧
    (9.4 : ℚ) ≠ 8.4 := by
  with_unfolding_all decide

/-- Claim C6, amended: the ranking is a stable descending sort — any two
entries with equal scores keep their input order — and on the (0.8, 0.2)
track with luck 0 the roster scores 9.4, 8.4, 9.8 (not 8.4, 8.4, 9.8),
giving the ranking [competitor 3, competitor 1, competitor 2] by strictly
decreasing score. -/
theorem C6_amended :
    (∀ (ds : List Driver) (t : Track) (L : ℕ → ℤ) (k : ℕ) (a b : String × ℚ),
      (ds.map Driver.name).Nodup →
      List.Sublist [a, b] (scoresOf t L ds k) → a.2 = b.2 →
      List.Sublist [a, b] (run_race ds t L k).1) ∧
    (run_race DRIVERS ⟨"Monaco", 0.8, 0.2⟩ (fun _ => 0) 0).1
      = [("Max Verstappen", 9.8), ("Juan Manuel Fangio", 9.4),
         ("Michael Schumacher", 8.4)] := by
  constructor
  · intro ds t L k a b hnd hsub hab
    rw [run_race_eq ds t L k hnd]
    exact pair_sublist_sortDesc (le_of_eq hab.symm) hsub
  · with_unfolding_all decide

/-- Claim C6 witness: two competitors engineered to score 3 each keep their
input order in the ranking. -/
theorem C6_amended_witness :
    List.Sublist [("P", (3 : ℚ)), ("Q", 3)]
      (run_race [⟨"P", 1, 2⟩, ⟨"Q", 2, 1⟩] ⟨"T", 1, 1⟩ (fun _ => 0) 0).1 :=
  C6_amended.1 [⟨"P", 1, 2⟩, ⟨"Q", 2, 1⟩] ⟨"T", 1, 1⟩ (fun _ => 0) 0
    ("P", 3) ("Q", 3) (by decide)
    ((show scoresOf ⟨"T", 1, 1⟩ (fun _ => 0) [⟨"P", 1, 2⟩, ⟨"Q", 2, 1⟩] 0
        = [("P", 3), ("Q", 3)] by with_unfolding_all rfl) ▸ List.Sublist.refl _)
    rfl

/-- Claim C7: for a non-empty roster with distinct names, the ranking has
the input's length, is a permutation of the per-driver (name, score) list
(every competitor exactly once, paired with its score), its name column is a
permutation of the roster's names, and its scores are non-increasing. -/
theorem C7_run_race_total (ds : List Driver) (t : Track) (L : ℕ → ℤ) (k : ℕ)
    (hne : ds ≠ []) (hnd : (ds.map Driver.name).Nodup) :
    (run_race ds t L k).1.length = ds.length ∧
    List.Perm (run_race ds t L k).1 (scoresOf t L ds k) ∧
    List.Perm ((run_race ds t L k).1.map Prod.fst) (ds.map Driver.name) ∧
    ((run_race ds t L k).1).Sorted sndGE := by
  refine ⟨run_race_length ds t L k hnd, ?_, ?_, ?_⟩
  · rw [run_race_eq ds t L k hnd]
    exact sortDesc_perm _
  · rw [run_race_eq ds t L k hnd]
    have hp := (sortDesc_perm (scoresOf t L ds k)).map Prod.fst
    rw [scoresOf_map_fst] at hp
    exact hp
  · rw [run_race_eq ds t L k hnd]
    exact sortDesc_sorted _

/-- Claim C7 witness: the fixed roster on the first season track with luck
stubbed to 0. -/
theorem C7_run_race_total_witness :
    (run_race DRIVERS ⟨"Monaco", 0.8, 0.2⟩ (fun _ => 0) 0).1.length = DRIVERS.length ∧
    List.Perm (run_race DRIVERS ⟨"Monaco", 0.8, 0.2⟩ (fun _ => 0) 0).1
      (scoresOf ⟨"Monaco", 0.8, 0.2⟩ (fun _ => 0) DRIVERS 0) ∧
    List.Perm ((run_race DRIVERS ⟨"Monaco", 0.8, 0.2⟩ (fun _ => 0) 0).1.map Prod.fst)
      (DRIVERS.map Driver.name) ∧
    ((run_race DRIVERS ⟨"Monaco", 0.8, 0.2⟩ (fun _ => 0) 0).1).Sorted sndGE :=
  C7_run_race_total DRIVERS ⟨"Monaco", 0.8, 0.2⟩ (fun _ => 0) 0
    (by decide) (by decide)

/-- Claim C8: one score call reads exactly one luck draw (in the randint
interval [MIN_LUCK, MAX_LUCK] = [-9, 9]) and returns
round(skill·difficulty + consistency·speed_bias + luck, 2); with luck 0 the
round of the deterministic part alone; and a race consumes exactly one draw
per competitor. -/
theorem C8_score_formula (c : Driver) (e : Track) (L : ℕ → ℤ) (k : ℕ)
    (hL : LuckValid L) :
    scoreDraw c e L k = (pyRound2 ((c.skill : ℚ) * e.difficulty
        + (c.consistency : ℚ) * e.speed_bias + (L k : ℚ)), k + 1) ∧
    MIN_LUCK ≤ L k ∧ L k ≤ MAX_LUCK ∧
    (L k = 0 → (scoreDraw c e L k).1
      = pyRound2 ((c.skill : ℚ) * e.difficulty + (c.consistency : ℚ) * e.speed_bias)) ∧
    (∀ ds : List Driver, (run_race ds e L k).2 = k + ds.length) := by
  refine ⟨rfl, (hL k).1, (hL k).2, ?_, ?_⟩
  · intro h0
    simp [scoreDraw, calculate_driver_score, h0]
  · intro ds
    exact scoreLoop_snd e L ds [] k

/-- Claim C8 witness: a skill-10, consistency-7 competitor on a (0.8, 0.2)
event with luck stubbed to 0, starting at draw index 5, scores 9.4 and
consumes exactly one draw. -/
theorem C8_score_formula_witness :
    scoreDraw ⟨"T1", 10, 7⟩ ⟨"M1", 0.8, 0.2⟩ (fun _ => 0) 5 = (9.4, 6) := by
  have h := (C8_score_formula ⟨"T1", 10, 7⟩ ⟨"M1", 0.8, 0.2⟩ (fun _ => 0) 5
    (fun _ => show MIN_LUCK ≤ (0 : ℤ) ∧ (0 : ℤ) ≤ MAX_LUCK from ⟨by decide, by decide⟩)).1
  rw [h]
  with_unfolding_all decide

/-- Claim C9: points accumulation commutes across events — whenever applying
ranking R1 then R2 to standings S succeeds with table u, applying R2 then R1
succeeds with the same u. -/
theorem C9_points_accumulation_comm (s : List (String × ℤ)) (r1 r2 : List (String × ℚ))
    (u : List (String × ℤ))
    (h : (apply_race s r1).bind (fun t => apply_race t r2) = .ok u) :
    (apply_race s r2).bind (fun t => apply_race t r1) = .ok u :=
  applyFrom_then_comm r2 r1 1 s u h

/-- Claim C9 witness: two one-entry rankings applied in either order to a
two-competitor table both give A 25, B 25. -/
theorem C9_points_accumulation_comm_witness :
    (apply_race [("A", 0), ("B", 0)] [("B", 1)]).bind
        (fun t => apply_race t [("A", 1)]) = .ok [("A", 25), ("B", 25)] :=
  C9_points_accumulation_comm [("A", 0), ("B", 0)] [("A", 1)] [("B", 1)]
    [("A", 25), ("B", 25)] (by rfl)

/-- Claim C10: with distinct roster names and a non-empty track list, the
standings start as the roster's names each at 0, and whenever the
championship returns a table (no-tie or tie-break outcome alike) its key
set, in order, is exactly the roster's names. -/
theorem C10_standings_keys (drivers : List Driver) (tracks : List Track) (L : ℕ → ℤ)
    (hnd : (drivers.map Driver.name).Nodup) (htracks : tracks ≠ []) :
    initStandings drivers = drivers.map (fun d => (d.name, (0 : ℤ))) ∧
    ∀ fin logs, run_championship drivers tracks L = .ok (fin, logs) →
      fin.map Prod.fst = drivers.map Driver.name := by
  refine ⟨initStandings_eq drivers hnd, ?_⟩
  intro fin logs h
  unfold run_championship at h
  cases hseason : seasonLoop drivers L tracks (initStandings drivers) none 0 with
  | error e => rw [hseason] at h; cases h
  | ok val =>
    obtain ⟨s, cls?, k2, logs'⟩ := val
    simp only [hseason] at h
    cases hres : resolve_season s cls? drivers L k2 with
    | error e =>
      simp only [hres] at h
      cases h
    | ok val2 =>
      obtain ⟨fin', tb?⟩ := val2
      simp only [hres] at h
      injection h with h
      simp only [Prod.mk.injEq] at h
      have hskeys : s.map Prod.fst = drivers.map Driver.name := by
        have hs := (seasonLoop_ok_info hseason).1
        rw [initStandings_map_fst drivers hnd] at hs
        exact hs
      have hfk := resolve_season_ok_keys hnd hskeys hres
      rw [← h.1]
      exact hfk

/-- Claim C10 witness: a two-driver season over two identical tracks whose
luck stream forces a 43-43 tie; the tie-break result still has exactly the
roster's names as keys. -/
theorem C10_standings_keys_witness :
    initStandings [⟨"A", 1, 1⟩, ⟨"B", 1, 1⟩]
      = ([⟨"A", 1, 1⟩, ⟨"B", 1, 1⟩] : List Driver).map (fun d => (d.name, (0 : ℤ))) ∧
    ∀ fin logs,
      run_championship [⟨"A", 1, 1⟩, ⟨"B", 1, 1⟩] [⟨"T", 1, 1⟩, ⟨"T", 1, 1⟩]
          (fun n => if n = 0 then 9 else if n = 3 then 9 else 0) = .ok (fin, logs) →
      fin.map Prod.fst = ([⟨"A", 1, 1⟩, ⟨"B", 1, 1⟩] : List Driver).map Driver.name :=
  C10_standings_keys [⟨"A", 1, 1⟩, ⟨"B", 1, 1⟩] [⟨"T", 1, 1⟩, ⟨"T", 1, 1⟩]
    (fun n => if n = 0 then 9 else if n = 3 then 9 else 0) (by decide) (by decide)

